import Mathlib

/-!
Verification of the Nepali romanized-typing component
(`src/nepali_unicode_typing.py`, embedded JavaScript).

The embedding models:
* `keyToNep` — the literal QWERTY-to-Devanagari character table
  (JS object, keys are single characters, values are strings);
* `romanToNepali` — the character-by-character conversion loop;
* `handleInput` — the textarea `input`-event handler with its
  `isConverting` re-entrancy guard, value write-back, caret restore
  and synthetic event dispatch;
* `setupNepaliTyping` — the discovery pass that binds textareas,
  guarded by the `data-nepali-enabled` marker attribute.

Strings are modelled as `List Char`; the JS `||` fallback in
`keyToNep[char] || char` is modelled faithfully, with the empty
string as the only falsy string value.
-/

namespace NepaliTyping

/-- The `keyToNep` table from the source, entry for entry, in source
order.  Keys are single characters; values are the JS string values. -/
def keyToNep : List (Char × String) := [
  ('a', "\u093E"), ('b', "\u092C"), ('c', "\u091B"), ('d', "\u0926"), ('e', "\u0947"),
  ('f', "\u0909"), ('g', "\u0917"), ('h', "\u0939"), ('i', "\u093F"), ('j', "\u091C"),
  ('k', "\u0915"), ('l', "\u0932"), ('m', "\u092E"), ('n', "\u0928"), ('o', "\u094B"),
  ('p', "\u092A"), ('q', "\u091F"), ('r', "\u0930"), ('s', "\u0938"), ('t', "\u0924"),
  ('u', "\u0941"), ('v', "\u0935"), ('w', "\u094C"), ('x', "\u0921"), ('y', "\u092F"),
  ('z', "\u0937"), ('A', "\u0906"), ('B', "\u092D"), ('C', "\u091A"), ('D', "\u0927"),
  ('E', "\u0948"), ('F', "\u090A"), ('G', "\u0918"), ('H', "\u0905"), ('I', "\u0940"),
  ('J', "\u091D"), ('K', "\u0916"), ('L', "\u0933"), ('M', "\u0902"), ('N', "\u0923"),
  ('O', "\u0913"), ('P', "\u092B"), ('Q', "\u0920"), ('R', "\u0943"), ('S', "\u0936"),
  ('T', "\u0925"), ('U', "\u0942"), ('V', "\u0901"), ('W', "\u0914"), ('X', "\u0922"),
  ('Y', "\u091E"), ('Z', "\u090B"), ('0', "\u0966"), ('1', "\u0967"), ('2', "\u0968"),
  ('3', "\u0969"), ('4', "\u096A"), ('5', "\u096B"), ('6', "\u096C"), ('7', "\u096D"),
  ('8', "\u096E"), ('9', "\u096F"), ('\u0060', "\u093D"), ('~', "\u093C"), ('_', "\u0952"),
  ('+', "\u200C"), ('=', "\u200D"), ('[', "\u0907"), ('\u007B', "\u0908"), (']', "\u090F"),
  ('\u007D', "\u0910"), ('\\', "\u0950"), ('|', "\u0903"), ('<', "\u0919"), ('.', "\u0964"),
  ('>', "\u0965"), ('/', "\u094D"), ('?', "?")
]

/-- One step of the conversion loop: `keyToNep[char] || char`.
A JS property access on a missing key gives `undefined` (falsy) and
the empty string is the only falsy string, so the fallback to `char`
fires on a missing key or an empty-string value. -/
def mapChar (char : Char) : List Char :=
  match keyToNep.lookup char with
  | some v => if v.data = [] then [char] else v.data
  | none => [char]

/-- The body of the `for` loop of `romanToNepali`: appends
`keyToNep[char] || char` for each character in order. -/
def romanToNepaliGo : List Char → List Char
  | [] => []
  | char :: rest => mapChar char ++ romanToNepaliGo rest

/-- `romanToNepali` from the source: the early `if (!romanText) return ''`
for the (falsy) empty string, then the character loop. -/
def romanToNepali (romanText : List Char) : List Char :=
  if romanText.isEmpty then [] else romanToNepaliGo romanText

/-- The per-character rule exactly as the spec words it: output
`CharacterMap[char]` if `char` is a key, else `char` unchanged.
Used only to compare against `romanToNepali`, which is taken from the
source. -/
def specCharOut (c : Char) : List Char :=
  match keyToNep.lookup c with
  | some v => v.data
  | none => [c]

/-- The fold the spec describes: the concatenation, in order, of the
per-character outputs. -/
def transliterateSpec (s : List Char) : List Char :=
  s.foldr (fun c acc => specCharOut c ++ acc) []

/-- The declared key set of the table. -/
def tableKeys : List Char :=
  keyToNep.map Prod.fst

/-- The output alphabet of the table: every character occurring in a
value of the table. -/
def outputChars : List Char :=
  keyToNep.foldr (fun p acc => p.2.data ++ acc) []

/-- A bound text surface as the handler sees it: full text value,
selection offsets, and the closure variable `isConverting`. -/
structure Surface where
  value : List Char
  selectionStart : Nat
  selectionEnd : Nat
  isConverting : Bool
deriving DecidableEq

/-- The `input`-event handler attached to each bound textarea.  The
synthetic `dispatchEvent(new Event('input'))` in the write branch
synchronously re-enters this same handler, modelled by the recursive
call; `fuel` bounds that recursion depth (the guard makes any depth
beyond the first re-entry unreachable, proved below).  The second
component counts the synthetic input events this handler dispatched. -/
def handleInput : Nat → Surface → Surface × Nat
  | 0, s => (s, 0)
  | fuel + 1, s =>
    if s.isConverting then (s, 0)
    else
      let s1 : Surface := { s with isConverting := true }
      let originalValue := s1.value
      let cursorPos := s1.selectionStart
      let nepaliText := romanToNepali originalValue
      if nepaliText ≠ originalValue then
        let s2 : Surface :=
          { s1 with value := nepaliText, selectionStart := cursorPos, selectionEnd := cursorPos }
        let r := handleInput fuel s2
        ({ r.1 with isConverting := false }, r.2 + 1)
      else
        ({ s1 with isConverting := false }, 0)

/-- A textarea as the discovery pass sees it: the persistent
`data-nepali-enabled` marker attribute and the number of attached
input listeners. -/
structure Area where
  nepaliEnabled : Bool
  listenerCount : Nat
deriving DecidableEq

/-- The body of the `forEach` in `setupNepaliTyping`: skip a textarea
already carrying the marker, otherwise set the marker and attach the
input listener. -/
def bindArea (a : Area) : Area :=
  if a.nepaliEnabled then a
  else { nepaliEnabled := true, listenerCount := a.listenerCount + 1 }

/-- `setupNepaliTyping`: one scan-and-bind pass over all textareas of
the document, run at startup and again from the MutationObserver
callback. -/
def setupNepaliTyping (textAreas : List Area) : List Area :=
  textAreas.map bindArea

/-- The punctuation keys the spec enumerates for the table:
backtick, tilde, underscore, plus, equals, brackets, braces,
backslash, pipe, angle brackets, dot, slash and question mark. -/
def punctKeys : List Char :=
  ['\u0060', '~', '_', '+', '=', '[', '\u007B', ']', '\u007D',
   '\\', '|', '<', '.', '>', '/', '?']

/-! ### Helper lemmas -/

/-- A lookup on a key absent from an association list fails. -/
theorem lookup_eq_none_of_not_mem {α β : Type} [BEq α] [LawfulBEq α]
    {l : List (α × β)} {a : α} (h : a ∉ l.map Prod.fst) :
    l.lookup a = none := by
  induction l with
  | nil => rfl
  | cons p t ih =>
    obtain ⟨k, v⟩ := p
    simp only [List.map_cons, List.mem_cons, not_or] at h
    simp only [List.lookup]
    rw [beq_false_of_ne h.1]
    exact ih h.2

/-- A successful lookup returns a pair of the association list. -/
theorem mem_of_lookup_eq_some {α β : Type} [BEq α] [LawfulBEq α]
    {l : List (α × β)} {a : α} {b : β} (h : l.lookup a = some b) :
    (a, b) ∈ l := by
  induction l with
  | nil => simp [List.lookup] at h
  | cons p t ih =>
    obtain ⟨k, v⟩ := p
    simp only [List.lookup] at h
    cases hab : a == k
    · rw [hab] at h
      simp only at h
      exact List.mem_cons_of_mem _ (ih h)
    · rw [hab] at h
      simp only [Option.some.injEq] at h
      subst h
      have hk : a = k := eq_of_beq hab
      subst hk
      exact List.mem_cons_self _ _

/-- Every value of the table is a one-character string. -/
theorem keyToNep_value_length (p : Char × String) (hp : p ∈ keyToNep) :
    p.2.data.length = 1 := by
  revert p
  decide

/-- No value of the table is the empty string, so the JS `||`
fallback never fires on a present key. -/
theorem keyToNep_value_ne_nil (p : Char × String) (hp : p ∈ keyToNep) :
    p.2.data ≠ [] := by
  revert p
  decide

/-- The loop step agrees with the spec's per-character rule. -/
theorem mapChar_eq_specCharOut (c : Char) : mapChar c = specCharOut c := by
  unfold mapChar specCharOut
  cases h : keyToNep.lookup c with
  | none => rfl
  | some v =>
    simp only [if_neg (keyToNep_value_ne_nil (c, v) (mem_of_lookup_eq_some h))]

/-- A character outside the key set passes through the loop step. -/
theorem mapChar_of_not_key {c : Char} (h : c ∉ tableKeys) : mapChar c = [c] := by
  unfold mapChar
  rw [lookup_eq_none_of_not_mem h]

/-- The loop step emits exactly one character per input character. -/
theorem mapChar_length (c : Char) : (mapChar c).length = 1 := by
  unfold mapChar
  cases h : keyToNep.lookup c with
  | none => rfl
  | some v =>
    have h1 := keyToNep_value_length (c, v) (mem_of_lookup_eq_some h)
    have h2 := keyToNep_value_ne_nil (c, v) (mem_of_lookup_eq_some h)
    simp only [if_neg h2]
    exact h1

/-- The conversion loop distributes over concatenation. -/
theorem romanToNepaliGo_append (a b : List Char) :
    romanToNepaliGo (a ++ b) = romanToNepaliGo a ++ romanToNepaliGo b := by
  induction a with
  | nil => rfl
  | cons c t ih => simp [romanToNepaliGo, ih]

/-- The early empty-string return of `romanToNepali` coincides with
the loop, so the two agree on every input. -/
theorem romanToNepali_eq_go (s : List Char) :
    romanToNepali s = romanToNepaliGo s := by
  cases s with
  | nil => rfl
  | cons c t => rfl

/-- Every value of the table is left fixed by the conversion loop:
no output character is a key, except "?", which maps to itself. -/
theorem keyToNep_value_fixed (p : Char × String) (hp : p ∈ keyToNep) :
    romanToNepaliGo p.2.data = p.2.data := by
  revert p
  decide

/-- The output of one loop step is left fixed by the loop. -/
theorem romanToNepaliGo_mapChar (c : Char) :
    romanToNepaliGo (mapChar c) = mapChar c := by
  cases h : keyToNep.lookup c with
  | none =>
    have hc : mapChar c = [c] := by unfold mapChar; rw [h]
    rw [hc]
    simp [romanToNepaliGo, hc]
  | some v =>
    have hc : mapChar c = v.data := by
      unfold mapChar
      rw [h]
      exact if_neg (keyToNep_value_ne_nil (c, v) (mem_of_lookup_eq_some h))
    rw [hc]
    exact keyToNep_value_fixed (c, v) (mem_of_lookup_eq_some h)

/-- A handler invocation that finds the re-entrancy guard set returns
at once, leaving the surface untouched and dispatching nothing. -/
theorem handleInput_guarded (fuel : Nat) (s : Surface) (h : s.isConverting = true) :
    handleInput fuel s = (s, 0) := by
  cases fuel with
  | zero => rfl
  | succ n => simp [handleInput, h]

/-- One unguarded handler pass, fully evaluated: either the value is
already converted and nothing happens, or the converted value is
written, the caret collapses to the captured offset, and exactly one
synthetic input event is dispatched. -/
theorem handleInput_step (fuel : Nat) (v : List Char) (a b : Nat) :
    handleInput (fuel + 2) ⟨v, a, b, false⟩ =
      if romanToNepali v = v then (⟨v, a, b, false⟩, 0)
      else (⟨romanToNepali v, a, a, false⟩, 1) := by
  by_cases hv : romanToNepali v = v
  · simp [handleInput, hv]
  · simp [handleInput, hv, handleInput_guarded]

/-! ### Claims -/

/-- Claim C1: for every input string, `romanToNepali` is the in-order
character-by-character fold of the input under the spec's rule: each
character that is a key of the table is replaced by its mapped value,
and every other character is output unchanged. -/
theorem claim_C1_char_fold (s : List Char) :
    romanToNepali s = transliterateSpec s := by
  rw [romanToNepali_eq_go]
  induction s with
  | nil => rfl
  | cons c t ih =>
    simp [romanToNepaliGo, transliterateSpec, mapChar_eq_specCharOut, ih]

/-- Claim C2: the conversion preserves character count — every table
entry maps one source character to exactly one output character and
unmapped characters pass through one-to-one. -/
theorem claim_C2_length_preserving (s : List Char) :
    (romanToNepali s).length = s.length := by
  rw [romanToNepali_eq_go]
  induction s with
  | nil => rfl
  | cons c t ih => simp [romanToNepaliGo, mapChar_length, ih, Nat.add_comm]

/-- Claim C3, counterexample: on the input "namaste" the conversion
does not return the eight-character string
U+0928 U+093E U+092E U+093E U+0938 U+094D U+0924 U+0947 that the spec
states — the table has no multi-character sequence rules, so the `st`
cluster gains no U+094D (virama). -/
theorem claim_C3_counterexample :
    romanToNepali "namaste".data ≠ "\u0928\u093E\u092E\u093E\u0938\u094D\u0924\u0947".data := by
  decide

/-- Claim C3, amended: on the input "namaste" the conversion returns
the seven-character string U+0928 U+093E U+092E U+093E U+0938 U+0924
U+0947 — one output character per input character, with no inserted
virama. -/
theorem claim_C3_amended :
    romanToNepali "namaste".data = "\u0928\u093E\u092E\u093E\u0938\u0924\u0947".data := by
  decide

/-- Claim C4: a handler invocation that finds the re-entrancy guard
set returns immediately without transforming or dispatching; an
unguarded invocation leaves the guard cleared when it returns; and the
handler's behaviour is independent of the re-entry fuel beyond the one
synthetic re-entry, so the synthetic change notification never causes
unbounded recursion or a second overlapping transform. -/
theorem claim_C4_reentrancy_guard :
    (∀ fuel s, s.isConverting = true → handleInput fuel s = (s, 0)) ∧
    (∀ fuel s, (handleInput (fuel + 2) s).1.isConverting = s.isConverting) ∧
    (∀ fuel s, handleInput (fuel + 2) s = handleInput 2 s) := by
  refine ⟨handleInput_guarded, ?_, ?_⟩
  · intro fuel s
    obtain ⟨v, a, b, g⟩ := s
    cases g
    · rw [handleInput_step]
      by_cases hv : romanToNepali v = v
      · simp [hv]
      · simp [hv]
    · rw [handleInput_guarded _ _ rfl]
  · intro fuel s
    obtain ⟨v, a, b, g⟩ := s
    cases g
    · exact (handleInput_step fuel v a b).trans (handleInput_step 0 v a b).symm
    · rw [handleInput_guarded _ _ rfl, handleInput_guarded _ _ rfl]

theorem claim_C4_witness :
    handleInput 5 ⟨['k'], 1, 1, true⟩ = (⟨['k'], 1, 1, true⟩, 0) :=
  claim_C4_reentrancy_guard.1 5 ⟨['k'], 1, 1, true⟩ rfl

/-- Claim C5: on a surface holding "ks" with caret at offset 2, one
handler pass writes the converted value, restores both selection
offsets to 2 and dispatches exactly one synthetic notification; a
second pass on the unchanged value writes nothing and dispatches
nothing, and in general a pass over an already-converted value leaves
the surface untouched. -/
theorem claim_C5_binder_scenario :
    handleInput 2 ⟨['k', 's'], 2, 2, false⟩ = (⟨['\u0915', '\u0938'], 2, 2, false⟩, 1) ∧
    handleInput 2 ⟨['\u0915', '\u0938'], 2, 2, false⟩ = (⟨['\u0915', '\u0938'], 2, 2, false⟩, 0) ∧
    (∀ v a b, romanToNepali v = v →
      handleInput 2 ⟨v, a, b, false⟩ = (⟨v, a, b, false⟩, 0)) := by
  refine ⟨by decide, by decide, ?_⟩
  intro v a b hv
  have h := handleInput_step 0 v a b
  rw [if_pos hv] at h
  exact h

theorem claim_C5_witness :
    handleInput 2 ⟨['?'], 0, 1, false⟩ = (⟨['?'], 0, 1, false⟩, 0) :=
  claim_C5_binder_scenario.2.2 ['?'] 0 1 (by decide)

/-- Claim C6: a string made only of output-alphabet characters that
are not themselves keys of the table is left unchanged by the
conversion. -/
theorem claim_C6_output_fixed (s : List Char)
    (h : ∀ c ∈ s, c ∈ outputChars ∧ c ∉ tableKeys) :
    romanToNepali s = s := by
  rw [romanToNepali_eq_go]
  induction s with
  | nil => rfl
  | cons c t ih =>
    have hc := h c (List.mem_cons_self c t)
    have ht := ih fun x hx => h x (List.mem_cons_of_mem _ hx)
    simp [romanToNepaliGo, mapChar_of_not_key hc.2, ht]

theorem claim_C6_witness :
    romanToNepali ['\u0928', '\u094D'] = ['\u0928', '\u094D'] :=
  claim_C6_output_fixed ['\u0928', '\u094D'] (by decide)

/-- Claim C7: the conversion is a total function of its input (it is
a plain function in this embedding, so it can raise nothing), and
every single character outside the declared key set passes through
unchanged. -/
theorem claim_C7_unmapped_passthrough (c : Char) (h : c ∉ tableKeys) :
    romanToNepali [c] = [c] := by
  rw [romanToNepali_eq_go]
  simp [romanToNepaliGo, mapChar_of_not_key h]

theorem claim_C7_witness : romanToNepali ['!'] = ['!'] :=
  claim_C7_unmapped_passthrough '!' (by decide)

/-- Claim C8: a discovery pass binds every not-yet-bound textarea and
leaves already-bound ones untouched; because the marker persists on
the textarea, repeated passes are idempotent, every textarea is bound
after a pass, an unbound textarea gains exactly one listener, and a
pass over a grown document re-binds nothing that was already bound. -/
theorem claim_C8_bind_once :
    (∀ a : Area, a.nepaliEnabled = true → bindArea a = a) ∧
    (∀ doc : List Area,
      setupNepaliTyping (setupNepaliTyping doc) = setupNepaliTyping doc) ∧
    (∀ doc : List Area, ∀ a ∈ setupNepaliTyping doc, a.nepaliEnabled = true) ∧
    (∀ a : Area, a.nepaliEnabled = false →
      (bindArea a).nepaliEnabled = true ∧
      (bindArea a).listenerCount = a.listenerCount + 1) ∧
    (∀ doc extra : List Area,
      setupNepaliTyping (doc ++ extra) =
        setupNepaliTyping doc ++ setupNepaliTyping extra) := by
  have hbind : ∀ a : Area, a.nepaliEnabled = true → bindArea a = a := by
    intro a h
    simp [bindArea, h]
  have henabled : ∀ a : Area, (bindArea a).nepaliEnabled = true := by
    intro a
    by_cases h : a.nepaliEnabled
    · rw [hbind a h]
      exact h
    · simp [bindArea, h]
  refine ⟨hbind, ?_, ?_, ?_, ?_⟩
  · intro doc
    unfold setupNepaliTyping
    rw [List.map_map]
    have hcomp : bindArea ∘ bindArea = bindArea :=
      funext fun a => hbind _ (henabled a)
    rw [hcomp]
  · intro doc a ha
    obtain ⟨x, _, rfl⟩ := List.mem_map.mp ha
    exact henabled x
  · intro a h
    constructor
    · exact henabled a
    · simp [bindArea, h]
  · intro doc extra
    simp [setupNepaliTyping]

theorem claim_C8_witness :
    bindArea ⟨true, 1⟩ = ⟨true, 1⟩ ∧
    (bindArea ⟨false, 0⟩).nepaliEnabled = true ∧
    (bindArea ⟨false, 0⟩).listenerCount = 1 :=
  ⟨claim_C8_bind_once.1 ⟨true, 1⟩ rfl,
   (claim_C8_bind_once.2.2.2.1 ⟨false, 0⟩ rfl).1,
   (claim_C8_bind_once.2.2.2.1 ⟨false, 0⟩ rfl).2⟩

/-- Claim C9: the table has an entry for all 26 lowercase Latin
letters, all 26 uppercase Latin letters, the digits 0 through 9, and
the 16 listed punctuation characters; every lowercase letter and its
uppercase partner map to distinct outputs; and "?" has an explicit
entry mapping it to itself. -/
theorem claim_C9_coverage :
    (∀ n, n < 26 → Char.ofNat (97 + n) ∈ tableKeys) ∧
    (∀ n, n < 26 → Char.ofNat (65 + n) ∈ tableKeys) ∧
    (∀ n, n < 10 → Char.ofNat (48 + n) ∈ tableKeys) ∧
    punctKeys.length = 16 ∧
    (∀ c ∈ punctKeys, c ∈ tableKeys) ∧
    (∀ n, n < 26 → mapChar (Char.ofNat (97 + n)) ≠ mapChar (Char.ofNat (65 + n))) ∧
    ('?', "?") ∈ keyToNep := by
  decide

theorem claim_C9_witness :
    Char.ofNat (97 + 10) ∈ tableKeys ∧
    mapChar (Char.ofNat (97 + 0)) ≠ mapChar (Char.ofNat (65 + 0)) :=
  ⟨claim_C9_coverage.1 10 (by decide),
   claim_C9_coverage.2.2.2.2.2.1 0 (by decide)⟩

/-- Claim C10: the conversion is idempotent on every string — no
output character of the table except "?" is itself a key, and "?"
maps to itself — and consequently the value an unguarded handler pass
leaves on the surface is always a fixed point of the conversion. -/
theorem claim_C10_idempotent :
    (∀ s, romanToNepali (romanToNepali s) = romanToNepali s) ∧
    (∀ fuel (s : Surface), s.isConverting = false →
      romanToNepali (handleInput (fuel + 2) s).1.value =
        (handleInput (fuel + 2) s).1.value) := by
  have hidem : ∀ s, romanToNepali (romanToNepali s) = romanToNepali s := by
    intro s
    rw [romanToNepali_eq_go, romanToNepali_eq_go]
    induction s with
    | nil => rfl
    | cons c t ih =>
      show romanToNepaliGo (mapChar c ++ romanToNepaliGo t) = _
      rw [romanToNepaliGo_append, romanToNepaliGo_mapChar, ih]
      rfl
  refine ⟨hidem, ?_⟩
  intro fuel s h
  obtain ⟨v, a, b, g⟩ := s
  cases g
  · rw [handleInput_step]
    by_cases hv : romanToNepali v = v
    · rw [if_pos hv]
      exact hv
    · rw [if_neg hv]
      exact hidem v
  · exact Bool.noConfusion h

theorem claim_C10_witness :
    romanToNepali (handleInput 2 ⟨['a'], 1, 1, false⟩).1.value =
      (handleInput 2 ⟨['a'], 1, 1, false⟩).1.value :=
  claim_C10_idempotent.2 0 ⟨['a'], 1, 1, false⟩ rfl

end NepaliTyping


